import Mathlib

/-!
Verification of the antishmanna-site ingestion and clustering pipeline.

This file shallowly embeds the TypeScript sources under `src/` into Lean:

* strings are modelled as `List Char` (`Str`), with the handful of
  JavaScript string operations the code uses (`trim`, whitespace collapse,
  `slice`, regex replaces) implemented character by character;
* stateful/effectful code (HTTP fetches, the readability extractor, the
  URL parser, the document store) is modelled by passing the collaborator
  results in explicitly as function arguments, exactly at the boundary the
  code consumes them;
* fallible code is modelled with `Option`/`Except`.

Each source function keeps its name (`getDomain`, `extractFullText`,
`cleanContent`, `fetchFeed`, ...).  Database-generated cluster ids are
modelled as the insertion indices of the freshly inserted rows (the code
relies only on positional correspondence of the returned ids).
-/

/-- Strings of the embedded program: JavaScript strings as char lists. -/
abbrev Str := List Char

-- ─────────────────────────────────────────────────────────
-- Whitespace and basic text helpers
-- ─────────────────────────────────────────────────────────

/-- JavaScript `\s`-class membership for the characters the feeds produce:
space, tab, LF, CR, VT, FF and NBSP. -/
def isWsChar (c : Char) : Bool :=
  c = ' ' || c = '\t' || c = '\n' || c = '\r' || c.toNat = 11 || c.toNat = 12 ||
    c.toNat = 160

/-- One pass of `.replace(/\s+/g, " ")`: every whitespace run becomes a
single space.  The flag records whether the previous character was
whitespace (so the run's space is emitted only once). -/
def squeezeWsGo : Bool → List Char → List Char
  | _, [] => []
  | prevWs, c :: rest =>
    if isWsChar c then
      if prevWs then squeezeWsGo true rest else ' ' :: squeezeWsGo true rest
    else c :: squeezeWsGo false rest

/-- `.replace(/\s+/g, " ")`. -/
def squeezeWs (l : List Char) : List Char := squeezeWsGo false l

/-- JavaScript `.trim()`. -/
def trimL (s : Str) : Str :=
  ((s.dropWhile isWsChar).reverse.dropWhile isWsChar).reverse

/-- `.replace(/\s+/g, " ").trim()` — the whitespace collapse used all over
the ingest route. -/
def collapseWs (s : Str) : Str := trimL (squeezeWs s)

-- ─────────────────────────────────────────────────────────
-- lib/url.ts
-- ─────────────────────────────────────────────────────────

/-- The result of `new URL(href)` as far as `getDomain` consumes it.  URL
parsing itself is a platform collaborator (excluded in §1 of the spec), so
it is passed in as a function; `none` models the constructor throwing. -/
structure URLRec where
  hostname : Str
deriving DecidableEq

/-- `hostname.replace(/^www\./, "")`: removes one leading `www.` prefix and
nothing else. -/
def stripWww (h : Str) : Str :=
  match h with
  | 'w' :: 'w' :: 'w' :: '.' :: rest => rest
  | _ => h

/-- `getDomain` from `src/lib/url.ts`: the `try`/`catch` around `new URL`
becomes the `Option` returned by the parser; the function itself is total. -/
def getDomain (parseURL : Str → Option URLRec) (href : Str) : Option Str :=
  match parseURL href with
  | some u => some (stripWww u.hostname)
  | none => none

-- ─────────────────────────────────────────────────────────
-- Freshness filter (src/app/api/ingest/route.ts, runIngestion)
-- ─────────────────────────────────────────────────────────

/-- `const TWELVE_HOURS = 12 * 60 * 60 * 1000` (milliseconds). -/
def TWELVE_HOURS : Int := 12 * 60 * 60 * 1000

/-- Timestamp resolution in `runIngestion`:
`const ts = parsed.data.isoDate ?? parsed.data.pubDate ?? null` followed by
`if (ts) { try { published_at = parseISO(ts).toISOString() } catch {} }`.
`parse` is the date-parsing collaborator (epoch milliseconds); it returns
`none` when `parseISO(ts).toISOString()` would throw on an invalid date. -/
def resolvePublishedAt (isoDate pubDate : Option Str) (parse : Str → Option Int) :
    Option Int :=
  match (match isoDate with | some s => some s | none => pubDate) with
  | none => none
  | some ts => if ts.isEmpty then none else parse ts

/-- The freshness filter: with a timestamp, the item is skipped (`continue`)
exactly when `Date.now() - published_at > TWELVE_HOURS`; with no timestamp
the filter never fires. -/
def freshnessDrops (published_at : Option Int) (now : Int) : Bool :=
  match published_at with
  | none => false
  | some t => decide (now - t > TWELVE_HOURS)

-- ─────────────────────────────────────────────────────────
-- Mojibake repair (fixMojibake in src/app/api/ingest/route.ts)
-- ─────────────────────────────────────────────────────────

/-- `Buffer.from(text, "latin1")`: each UTF-16 unit is truncated to its low
byte. -/
def latin1Byte (c : Char) : Nat := c.toNat % 256

/-- Is a byte a UTF-8 continuation byte (`10xxxxxx`)? -/
def isContByte (b : Nat) : Bool := 0x80 ≤ b && b ≤ 0xBF

/-- The U+FFFD replacement character emitted for invalid sequences. -/
def replChar : Char := Char.ofNat 0xFFFD

/-- `buffer.toString("utf8")`: an incremental UTF-8 decoder with
replacement-character semantics, fuelled by the byte count (each step
consumes at least one byte, so `bytes.length` fuel is always enough). -/
def utf8DecodeGo : Nat → List Nat → List Char
  | 0, _ => []
  | _, [] => []
  | fuel + 1, b :: rest =>
    if b < 0x80 then Char.ofNat b :: utf8DecodeGo fuel rest
    else if 0xC2 ≤ b && b ≤ 0xDF then
      match rest with
      | b2 :: rest2 =>
        if isContByte b2 then
          Char.ofNat ((b - 0xC0) * 64 + (b2 - 0x80)) :: utf8DecodeGo fuel rest2
        else replChar :: utf8DecodeGo fuel rest
      | [] => [replChar]
    else if 0xE0 ≤ b && b ≤ 0xEF then
      match rest with
      | b2 :: b3 :: rest3 =>
        let lo2 := if b = 0xE0 then 0xA0 else 0x80
        let hi2 := if b = 0xED then 0x9F else 0xBF
        if (lo2 ≤ b2 && b2 ≤ hi2) && isContByte b3 then
          Char.ofNat ((b - 0xE0) * 4096 + (b2 - 0x80) * 64 + (b3 - 0x80)) ::
            utf8DecodeGo fuel rest3
        else replChar :: utf8DecodeGo fuel rest
      | _ => [replChar]
    else if 0xF0 ≤ b && b ≤ 0xF4 then
      match rest with
      | b2 :: b3 :: b4 :: rest4 =>
        let lo2 := if b = 0xF0 then 0x90 else 0x80
        let hi2 := if b = 0xF4 then 0x8F else 0xBF
        if ((lo2 ≤ b2 && b2 ≤ hi2) && isContByte b3) && isContByte b4 then
          Char.ofNat ((b - 0xF0) * 262144 + (b2 - 0x80) * 4096 +
              (b3 - 0x80) * 64 + (b4 - 0x80)) :: utf8DecodeGo fuel rest4
        else replChar :: utf8DecodeGo fuel rest
      | _ => [replChar]
    else replChar :: utf8DecodeGo fuel rest

/-- Decode a byte list as UTF-8 the way `Buffer.prototype.toString("utf8")`
does. -/
def utf8DecodeBytes (bytes : List Nat) : List Char :=
  utf8DecodeGo bytes.length bytes

/-- The tell-tale character class `/[ÂÃâ€]/` of `fixMojibake`. -/
def mojibakeTell (c : Char) : Bool :=
  c = 'Â' || c = 'Ã' || c = 'â' || c = '€'

/-- `fixMojibake` from the ingest route: re-decode as latin1-mangled UTF-8
only when the heuristic fires and the re-decoding changes the string. -/
def fixMojibake (s : Str) : Str :=
  if s.isEmpty then s
  else if s.any mojibakeTell then
    let fixed := utf8DecodeBytes (s.map latin1Byte)
    if !fixed.isEmpty && fixed ≠ s then fixed else s
  else s

-- ─────────────────────────────────────────────────────────
-- cleanContent (src/app/api/ingest/route.ts)
-- ─────────────────────────────────────────────────────────

/-- `.replace(/ /g, " ")`. -/
def replaceNbsp (l : List Char) : List Char :=
  l.map (fun c => if c.toNat = 160 then ' ' else c)

/-- `.replace(/​/g, "")`. -/
def removeZwsp (l : List Char) : List Char :=
  l.filter (fun c => decide (c.toNat ≠ 0x200B))

/-- `.replace(/¬†/g, " ")`: every occurrence of the two-character mojibake
sequence `¬†` becomes a single space. -/
def replaceNotDagger : List Char → List Char
  | [] => []
  | '¬' :: '†' :: rest => ' ' :: replaceNotDagger rest
  | c :: rest => c :: replaceNotDagger rest

/-- Case-insensitive character comparison. -/
def lowerEq (a b : Char) : Bool := a.toLower = b.toLower

/-- Case-insensitive "is `pat` a prefix of `l`". -/
def startsWithCI : List Char → List Char → Bool
  | [], _ => true
  | _ :: _, [] => false
  | p :: ps, c :: cs => lowerEq p c && startsWithCI ps cs

/-- The expansions of the trailing-attribution alternation
`AP News|Reuters|Bloomberg\.?com?|The Associated Press` (the `?`
quantifiers expanded; note the regex requires `co`/`com` after
`Bloomberg`). -/
def attribAlts : List Str :=
  [ "AP News".toList, "Reuters".toList, "Bloomberg.com".toList,
    "Bloomberg.co".toList, "Bloombergcom".toList, "Bloombergco".toList,
    "The Associated Press".toList ]

/-- Does `/\s+(?:…)\s*$/i` match starting exactly here?  One or more
whitespace characters, then an alternative (case-insensitively), then only
whitespace up to the end of the string. -/
def attribTailMatch (l : List Char) : Bool :=
  match l with
  | [] => false
  | c :: _ =>
    isWsChar c &&
      (let m := l.dropWhile isWsChar
       attribAlts.any (fun alt =>
         startsWithCI alt m && (m.drop alt.length).all isWsChar))

/-- `.replace(/\s+(?:AP News|Reuters|Bloomberg\.?com?|The Associated
Press)\s*$/i, "")`: the leftmost position where the anchored pattern
matches is cut off. -/
def stripAttribution : List Char → List Char
  | [] => []
  | c :: rest =>
    if attribTailMatch (c :: rest) then [] else c :: stripAttribution rest

/-- `cleanContent` from the ingest route, applied to both titles and
bodies. -/
def cleanContent (s : Str) : Str :=
  if s.isEmpty then s
  else
    let t := replaceNotDagger (removeZwsp (replaceNbsp s))
    let t2 := collapseWs (stripAttribution t)
    collapseWs (fixMojibake t2)

-- ─────────────────────────────────────────────────────────
-- stripHtmlToText (src/app/api/ingest/route.ts)
-- ─────────────────────────────────────────────────────────

/-- Split the characters after a `<` at the first `>`: returns the tag
inside and the remainder after the `>`. -/
def splitTag : List Char → Option (List Char × List Char)
  | [] => none
  | c :: rest =>
    if c = '>' then some ([], rest)
    else (splitTag rest).map (fun p => (c :: p.1, p.2))

/-- One tag-removal pass: every `<…>` whose inside satisfies
`shouldRemove` (the inside never contains `>`) is replaced by a single
space; everything else is copied.  Instantiated for both
`<\/?(?:nav|header|footer|aside|noscript)[^>]*>` and `<[^>]+>`.
Fuelled by the input length: every step consumes at least one input
character, so length fuel always suffices. -/
def removeTagsByGo (shouldRemove : List Char → Bool) : Nat → List Char → List Char
  | _, [] => []
  | 0, l => l
  | fuel + 1, c :: rest =>
    if c = '<' then
      match splitTag rest with
      | some p =>
        if shouldRemove p.1 then ' ' :: removeTagsByGo shouldRemove fuel p.2
        else c :: removeTagsByGo shouldRemove fuel rest
      | none => c :: removeTagsByGo shouldRemove fuel rest
    else c :: removeTagsByGo shouldRemove fuel rest

/-- A whole tag-removal pass over the document. -/
def removeTagsBy (shouldRemove : List Char → Bool) (l : List Char) : List Char :=
  removeTagsByGo shouldRemove l.length l

/-- Matcher for the inside of `<\/?(?:nav|header|footer|aside|noscript)[^>]*>`:
an optional `/`, then one of the element names case-insensitively, then
anything (the inside contains no `>` by construction). -/
def namedTagInside (inside : List Char) : Bool :=
  let body := match inside with | '/' :: r => r | _ => inside
  [ "nav".toList, "header".toList, "footer".toList, "aside".toList,
    "noscript".toList ].any (fun n => startsWithCI n body)

/-- Case-insensitive first-occurrence search; returns the index. -/
def findCI (pat : Str) : List Char → Option Nat
  | [] => if startsWithCI pat [] then some 0 else none
  | c :: rest =>
    if startsWithCI pat (c :: rest) then some 0
    else (findCI pat rest).map (· + 1)

/-- Lazy block removal `openPat[\s\S]*?closePat` (case-insensitive, global),
each match replaced by one space.  Fuelled by the input length: every step
either advances one character or removes a nonempty match, so length fuel
suffices. -/
def stripBlockGo (openPat closePat : Str) : Nat → List Char → List Char
  | _, [] => []
  | 0, l => l
  | fuel + 1, c :: rest =>
    if !openPat.isEmpty && startsWithCI openPat (c :: rest) then
      match findCI closePat ((c :: rest).drop openPat.length) with
      | some j =>
        ' ' :: stripBlockGo openPat closePat fuel
          (((c :: rest).drop openPat.length).drop (j + closePat.length))
      | none => c :: stripBlockGo openPat closePat fuel rest
    else c :: stripBlockGo openPat closePat fuel rest

/-- `html.replace(/openPat[\s\S]*?closePat/gi, " ")`. -/
def stripBlock (openPat closePat : Str) (l : List Char) : List Char :=
  stripBlockGo openPat closePat l.length l

/-- `stripHtmlToText` from the ingest route: drop script/style blocks,
drop nav/header/footer/aside/noscript tags, drop all remaining tags, then
collapse whitespace. -/
def stripHtmlToText (html : Str) : Str :=
  let t1 := stripBlock ("<script".toList) ("</script>".toList) html
  let t2 := stripBlock ("<style".toList) ("</style>".toList) t1
  let t3 := removeTagsBy namedTagInside t2
  let t4 := removeTagsBy (fun inside => !inside.isEmpty) t3
  collapseWs t4

-- ─────────────────────────────────────────────────────────
-- extractFullText (src/app/api/ingest/route.ts)
-- ─────────────────────────────────────────────────────────

/-- The HTTP response as `extractFullText` consumes it: the `res.ok` flag
and the body text. -/
structure HttpResponse where
  ok : Bool
  body : Str
deriving DecidableEq

/-- `html.length > 2_500_000 ? html.slice(0, 2_500_000) : html`. -/
def safeHtmlOf (html : Str) : Str :=
  if html.length > 2500000 then html.take 2500000 else html

/-- `extractFullText` from the ingest route.  Collaborators are passed in
at the boundary: `fetchResult` is `none` when `fetch` (or reading the body)
throws, and `readability` models `new Readability(dom.document).parse()` on
the given HTML — `.error ()` is a JSDOM/Readability exception, `.ok none`
is a `null` article or missing `textContent`, `.ok (some t)` is the
extracted `textContent`.  Every exception path returns `none`; the final
text must reach 200 characters, with `stripHtmlToText` as fallback when the
readability text is shorter than that. -/
def extractFullText (fetchResult : Option HttpResponse)
    (readability : Str → Except Unit (Option Str)) : Option Str :=
  match fetchResult with
  | none => none
  | some res =>
    if !res.ok then none
    else
      let safeHtml := safeHtmlOf res.body
      match readability safeHtml with
      | .error _ => none
      | .ok art =>
        let text := collapseWs (art.getD [])
        let text :=
          if text.isEmpty || decide (text.length < 200) then
            stripHtmlToText safeHtml
          else text
        if !text.isEmpty && decide (200 ≤ text.length) then some text else none

-- ─────────────────────────────────────────────────────────
-- Content resolution policy (runIngestion, src/app/api/ingest/route.ts)
-- ─────────────────────────────────────────────────────────

/-- `const MIN_FULLTEXT = 200`. -/
def MIN_FULLTEXT : Nat := 200

/-- `const FULLTEXT_SOURCES = new Set(["Reuters", "AP News", "Bloomberg"])`. -/
def FULLTEXT_SOURCES : List Str :=
  ["Reuters".toList, "AP News".toList, "Bloomberg".toList]

/-- JavaScript truthiness of a nullable string. -/
def truthyS : Option Str → Bool
  | none => false
  | some s => !s.isEmpty

/-- `parsed.data.contentSnippet || parsed.data.content || null`. -/
def firstTruthy (a b : Option Str) : Option Str :=
  if truthyS a then a else if truthyS b then b else none

/-- The source-keyed extraction policy of `runIngestion`.  `extract` is the
result `extractFullText` would deliver for the item's unwrapped link
(`none` = extraction failed).  Always-upgrade sources keep the snippet and
only upgrade on a ≥ `MIN_FULLTEXT` extraction; other sources consult
extraction only when the snippet is missing or its trimmed length is below
40. -/
def applyPolicy (source : Str) (content0 : Option Str) (extract : Option Str) :
    Option Str :=
  if FULLTEXT_SOURCES.contains source then
    match extract with
    | some full =>
      if !full.isEmpty && decide (MIN_FULLTEXT ≤ full.length) then some full
      else content0
    | none => content0
  else
    if (match content0 with
        | none => true
        | some s => decide ((trimL s).length < 40)) then
      match extract with
      | some full =>
        if !full.isEmpty && decide (MIN_FULLTEXT ≤ full.length) then some full
        else content0
      | none => content0
    else content0

/-- `"(no summary)"`. -/
def noSummary : Str := "(no summary)".toList

/-- `if (!content || !content.trim()) { content = title || "(no summary)" }`.
The `title` argument is the already-cleaned title (the route runs
`cleanContent` on the title before this point). -/
def titleGuard (c : Option Str) (title : Option Str) : Str :=
  let fallbackT :=
    match title with
    | some t => if t.isEmpty then noSummary else t
    | none => noSummary
  match c with
  | none => fallbackT
  | some s => if (trimL s).isEmpty then fallbackT else s

/-- The per-item content pipeline of `runIngestion` after link unwrapping:
initial content from the feed, the source policy, the title fallback,
`cleanContent`, and the 70-character floor.  Returns `none` when the item
is dropped (`continue`) and `some content` when it proceeds to the
upsert. -/
def processItemContent (source : Str) (snippet contentField title : Option Str)
    (extract : Option Str) : Option Str :=
  let c0 := firstTruthy snippet contentField
  let c1 := applyPolicy source c0 extract
  let c2 := titleGuard c1 title
  let c3 := cleanContent c2
  if c3.length < 70 then none else some c3

-- ─────────────────────────────────────────────────────────
-- fetchFeed and feed fan-out (src/app/api/ingest/route.ts)
-- ─────────────────────────────────────────────────────────

/-- The backoff sleep after a failed attempt:
`await new Promise((r) => setTimeout(r, 600 * (i + 1)))` for 0-based
attempt `i`. -/
def backoffDelayMs (i : Nat) : Nat := 600 * (i + 1)

/-- `fetchFeed`'s default `retries = 2`. -/
def DEFAULT_RETRIES : Nat := 2

/-- The retry loop of `fetchFeed`.  `attempt i` is the combined outcome of
the i-th `fetch` + `parser.parseString` (`.error msg` models any throw in
the attempt, e.g. `"HTTP 403"`; non-2xx statuses throw
`Error(name ++ ": HTTP status")` inside the attempt).  Returns the result
together with the number of attempts consumed.  On exhaustion the loop
throws one aggregated `Error(name ++ ": " ++ lastErr)`. -/
def fetchFeedGo {α : Type} (name : Str) (attempt : Nat → Except Str α) :
    Nat → Nat → Str → Except Str α × Nat
  | _, 0, lastErr => (.error (name ++ (": ".toList) ++ lastErr), 0)
  | i, remaining + 1, _ =>
    match attempt i with
    | .ok items => (.ok items, 1)
    | .error e =>
      let res := fetchFeedGo name attempt (i + 1) remaining e
      (res.1, res.2 + 1)

/-- `fetchFeed(name, url, retries = 2)`: up to `retries + 1` attempts. -/
def fetchFeed {α : Type} (name : Str) (retries : Nat)
    (attempt : Nat → Except Str α) : Except Str α × Nat :=
  fetchFeedGo name attempt 0 (retries + 1) ("null".toList)

/-- A configured feed (`lib/feeds.ts`). -/
structure FeedCfg where
  name : Str
  url : Str
deriving DecidableEq

/-- `Promise.allSettled(FEEDS.map((f) => fetchFeed(f.name, f.url)))`: every
feed is fetched independently; one settled outcome per feed, in order.
The per-feed attempt oracle is keyed by the feed configuration. -/
def fetchPhase {α : Type} (feeds : List FeedCfg) (retries : Nat)
    (attempt : FeedCfg → Nat → Except Str α) : List (Except Str (Str × α)) :=
  feeds.map (fun f =>
    match (fetchFeed f.name retries (attempt f)).1 with
    | .ok items => .ok (f.name, items)
    | .error e => .error e)

/-- The rejected-branch handling of `runIngestion`'s results loop: each
rejected feed pushes exactly one `{ source: "fetch", error: String(r.reason) }`
entry (`String` of an `Error` prints `"Error: " ++ message`). -/
def fetchErrors {α : Type} (settled : List (Except Str (Str × α))) :
    List (Str × Str) :=
  settled.filterMap (fun r =>
    match r with
    | .error e => some (("fetch".toList), ("Error: ".toList) ++ e)
    | .ok _ => none)

/-- The fulfilled feeds whose items proceed to per-item processing. -/
def fetchSuccesses {α : Type} (settled : List (Except Str (Str × α))) :
    List (Str × α) :=
  settled.filterMap (fun r =>
    match r with
    | .error _ => none
    | .ok v => some v)

/-- Did a settled operation fulfill? -/
def exceptIsOk {ε α : Type} : Except ε α → Bool
  | .ok _ => true
  | .error _ => false

-- ─────────────────────────────────────────────────────────
-- Cluster persistence (src/app/api/cluster/llm/route.ts, POST)
-- ─────────────────────────────────────────────────────────

/-- A cluster object of the parsed LLM response.  Fields the route guards
with `??` are `Option`s; `rank` is modelled as the integer the response
carries (`Number(...)` coercions on in-range JSON numbers are identities,
and `Number.isFinite` filters keep every integer). -/
structure LLMCluster where
  topic_label : Option Str
  member_ids : List Str
  market_impact_score : Option ℚ
  size : Option Int
  sources_count : Option Int
  freshness_score : Option ℚ
  breaking : Bool
  total_score : Option ℚ
  rank : Int
deriving DecidableEq

/-- A `top_summaries` entry of the parsed LLM response. -/
structure TopSummary where
  cluster_rank : Int
  summary : Str
deriving DecidableEq

/-- `trunc(s, n)` from the cluster route:
`(s ?? "").replace(/\s+/g, " ").trim().slice(0, n)`. -/
def trunc (s : Option Str) (n : Nat) : Str := (collapseWs (s.getD [])).take n

/-- Generated cluster ids: the store returns one fresh id per inserted row,
in insertion order; ids are modelled as those insertion indices
(`clusterIdByIndex[i] = i`). -/
abbrev ClusterId := Nat

/-- The association list the `clusters.forEach` loop feeds into
`clusterIdByRank` via `Map.set(c.rank, insertedId)`, kept in insertion
order. -/
def rankMapGo (i : Nat) : List LLMCluster → List (Int × ClusterId)
  | [] => []
  | c :: rest => (c.rank, i) :: rankMapGo (i + 1) rest

/-- `clusterIdByRank` as an association list. -/
def rankMap (clusters : List LLMCluster) : List (Int × ClusterId) :=
  rankMapGo 0 clusters

/-- `Map.prototype.get` for an insertion-ordered association list built
with `Map.set`: the latest `set` for a key wins. -/
def mapGet : List (Int × ClusterId) → Int → Option ClusterId
  | [], _ => none
  | (k, v) :: rest, r =>
    match mapGet rest r with
    | some v2 => some v2
    | none => if k = r then some v else none

/-- A `clusters_in_run` row (step 7 of the POST handler), carrying the
score fields straight from the response with the route's `??` defaults. -/
structure CirRow where
  cluster_id : ClusterId
  size : Int
  sources_count : Int
  breaking_flag : Bool
  freshness_score : ℚ
  total_score : ℚ
  rank : Int
  derived_label : Option Str
  market_impact_score : ℚ
deriving DecidableEq

/-- `cirRows = clusters.map((c, i) => ({...}))` with the index threaded
explicitly. -/
def cirRowsGo (i : Nat) : List LLMCluster → List CirRow
  | [] => []
  | c :: rest =>
    { cluster_id := i
      size := c.size.getD (Int.ofNat c.member_ids.length)
      sources_count := c.sources_count.getD 0
      breaking_flag := c.breaking
      freshness_score := c.freshness_score.getD 0
      total_score := c.total_score.getD 0
      rank := c.rank
      derived_label := c.topic_label.map (fun l => l.take 80)
      market_impact_score := c.market_impact_score.getD 0 } :: cirRowsGo (i + 1) rest

/-- The `clusters_in_run` rows inserted for a run. -/
def cirRows (clusters : List LLMCluster) : List CirRow := cirRowsGo 0 clusters

/-- Ascending insertion into a sorted list (for `.sort((a, b) => a - b)`). -/
def insertAsc (x : Int) : List Int → List Int
  | [] => [x]
  | y :: ys => if x ≤ y then x :: y :: ys else y :: insertAsc x ys

/-- `.sort((a, b) => a - b)`: numeric ascending sort. -/
def sortInts : List Int → List Int
  | [] => []
  | x :: xs => insertAsc x (sortInts xs)

/-- Step 8's rank selection: the declared `cluster_rank`s of
`top_summaries` when that list is nonempty, otherwise the `top` lowest
declared cluster ranks.  (`Number.isFinite` filters are identities on the
integer ranks of the model.) -/
def topRanks (clusters : List LLMCluster) (tops : List TopSummary) (top : Nat) :
    List Int :=
  if tops.isEmpty then (sortInts (clusters.map (·.rank))).take top
  else tops.map (·.cluster_rank)

/-- A `top_daily_clusters` row.  `cluster_id` is an `Option` because the
route reads `clusterIdByRank.get(rk)!` — the `!` is only a compile-time
assertion, and at runtime an unmatched rank yields `undefined`. -/
structure TopRow where
  cluster_id : Option ClusterId
  rank : Int
  total_score : ℚ
deriving DecidableEq

/-- The `top_daily_clusters` rows of step 8:
`topRanks.map((rk) => ({ cluster_id: clusterIdByRank.get(rk)!, rank: rk,
total_score: Number(clusters.find((c) => c.rank === rk)?.total_score ?? 0) }))`. -/
def topRows (clusters : List LLMCluster) (tops : List TopSummary) (top : Nat) :
    List TopRow :=
  (topRanks clusters tops top).map (fun rk =>
    { cluster_id := mapGet (rankMap clusters) rk
      rank := rk
      total_score :=
        ((clusters.find? (fun c => c.rank = rk)).bind (·.total_score)).getD 0 })

/-- A `summaries` row as step 9 builds it (the five bullet columns are all
`null` and the token/cost accounting comes from the completion object, so
only the fields the claims speak about are carried). -/
structure SummaryRow where
  cluster_id : ClusterId
  summary_text : Str
deriving DecidableEq

/-- Step 9: each `top_summaries` entry resolves its `cluster_rank` through
`clusterIdByRank`; unresolved entries map to `null` and are dropped by
`.filter(Boolean)`, resolved ones carry `trunc(s.summary, 300)`. -/
def summariesRows (m : List (Int × ClusterId)) (tops : List TopSummary) :
    List SummaryRow :=
  tops.filterMap (fun s =>
    (mapGet m s.cluster_rank).map (fun cid =>
      { cluster_id := cid, summary_text := trunc (some s.summary) 300 }))

/-- The `cluster_members` rows of step 6:
`clusters.flatMap((c, i) => c.member_ids.map((aid) => ({cluster_id:
clusterIdByIndex[i], article_id: aid, score: null})))`. -/
def memberRowsGo (i : Nat) : List LLMCluster → List (ClusterId × Str)
  | [] => []
  | c :: rest =>
    c.member_ids.map (fun aid => (i, aid)) ++ memberRowsGo (i + 1) rest

/-- All membership rows of a run. -/
def memberRows (clusters : List LLMCluster) : List (ClusterId × Str) :=
  memberRowsGo 0 clusters

/-- A batch `INSERT` into a table with a uniqueness constraint on the whole
row key: the batch fails (duplicate-key error) if any row collides with an
existing row or an earlier row of the same batch. -/
def insertUnique : List (ClusterId × Str) → List (ClusterId × Str) →
    Except Unit (List (ClusterId × Str))
  | tbl, [] => .ok tbl
  | tbl, r :: rs =>
    if r ∈ tbl then .error () else insertUnique (tbl ++ [r]) rs

/-- An upsert keyed on the pair (`onConflict: "cluster_id,article_id"`, as
the ingest route uses for `cluster_members`): a collision is a no-op on the
key set. -/
def upsertPair (tbl : List (ClusterId × Str)) (r : ClusterId × Str) :
    List (ClusterId × Str) :=
  if r ∈ tbl then tbl else tbl ++ [r]

/-- Step 6 of the POST handler: `cluster_members` rows are inserted with a
plain `.insert` (no `onConflict`), and `if (cmErr) throw cmErr`.  The table
starts empty for the key prefix because the run's cluster ids are fresh. -/
def persistMemberships (clusters : List LLMCluster) :
    Except Unit (List (ClusterId × Str)) :=
  let rows := memberRows clusters
  if rows.isEmpty then .ok [] else insertUnique [] rows

/-- The rows the run-persistence steps 6–9 produce. -/
structure RunSnapshot where
  members : List (ClusterId × Str)
  cir : List CirRow
  top : List TopRow
  summaries : List SummaryRow
deriving DecidableEq

/-- Steps 6–9 of the POST handler as one pure pass: a membership insert
error is thrown and fails the whole run; otherwise the
`clusters_in_run`, `top_daily_clusters` and `summaries` rows are produced
as the route builds them. -/
def persistRun (clusters : List LLMCluster) (tops : List TopSummary)
    (top : Nat) : Except Unit RunSnapshot :=
  match persistMemberships clusters with
  | .error e => .error e
  | .ok members =>
    .ok { members := members
          cir := cirRows clusters
          top := topRows clusters tops top
          summaries := summariesRows (rankMap clusters) tops }

-- ─────────────────────────────────────────────────────────
-- Impact scorer
-- ─────────────────────────────────────────────────────────

/-- Modelled from the spec: the market-impact ranking formula of §4.5,
`total_score = market_impact_score + 0.4*ln(1+size) + 0.3*ln(1+sources)
+ 0.5*freshness`.  No function in the repository evaluates this formula:
it appears only as instruction text inside `buildPrompt`
(src/app/api/cluster/llm/route.ts), to be computed by the external model. -/
noncomputable def totalScore (market_impact_score size sources_count
    freshness_score : ℝ) : ℝ :=
  market_impact_score + 0.4 * Real.log (1 + size) +
    0.3 * Real.log (1 + sources_count) + 0.5 * freshness_score

theorem log_four_bounds :
    (1.3862943606 : ℝ) < Real.log 4 ∧ Real.log 4 < 1.3862943616 := by
  have h4 : (4 : ℝ) = 2 ^ 2 := by norm_num
  have hp : Real.log 4 = 2 * Real.log 2 := by
    rw [h4, Real.log_pow]
    push_cast
    ring
  constructor
  · rw [hp]
    nlinarith [Real.log_two_gt_d9]
  · rw [hp]
    nlinarith [Real.log_two_lt_d9]

theorem log_five_sub_log_four_bounds :
    (0.2 : ℝ) ≤ Real.log 5 - Real.log 4 ∧
      Real.log 5 - Real.log 4 ≤ 0.25 := by
  have h45 : Real.log ((4 : ℝ) / 5) = Real.log 4 - Real.log 5 :=
    Real.log_div (by norm_num) (by norm_num)
  have h54 : Real.log ((5 : ℝ) / 4) = Real.log 5 - Real.log 4 :=
    Real.log_div (by norm_num) (by norm_num)
  have hlo : Real.log ((4 : ℝ) / 5) ≤ (4 : ℝ) / 5 - 1 :=
    Real.log_le_sub_one_of_pos (by norm_num)
  have hhi : Real.log ((5 : ℝ) / 4) ≤ (5 : ℝ) / 4 - 1 :=
    Real.log_le_sub_one_of_pos (by norm_num)
  constructor
  · nlinarith [hlo, h45]
  · nlinarith [hhi, h54]

theorem totalScore_fixed_bounds :
    (2.2004 : ℝ) < totalScore 0.7 4 3 0.9 ∧
      totalScore 0.7 4 3 0.9 < 2.2205 := by
  have h5 : (1 : ℝ) + 4 = 5 := by norm_num
  have h4 : (1 : ℝ) + 3 = 4 := by norm_num
  have hv : totalScore 0.7 4 3 0.9 =
      0.7 + 0.4 * Real.log 5 + 0.3 * Real.log 4 + 0.5 * 0.9 := by
    rw [totalScore, h5, h4]
  obtain ⟨hl4, hu4⟩ := log_four_bounds
  obtain ⟨hl54, hu54⟩ := log_five_sub_log_four_bounds
  constructor
  · rw [hv]; nlinarith
  · rw [hv]; nlinarith

-- ─────────────────────────────────────────────────────────
-- Concrete inputs used by witnesses and counterexamples
-- ─────────────────────────────────────────────────────────

/-- A URL parser oracle for concrete evaluations. -/
def wParseURL : Str → Option URLRec := fun h =>
  if h = "https://www.example.com/a".toList then
    some { hostname := "www.example.com".toList }
  else none

/-- A date parser that never succeeds (every timestamp unparseable). -/
def wParseNone : Str → Option Int := fun _ => none

/-- A 50-character snippet (trimmed length 50: above the 40-character
snippet gate, below the 70-character floor). -/
def snip50 : Str := List.replicate 50 'a'

/-- A 300-character extraction result (above `MIN_FULLTEXT`). -/
def ext300 : Str := List.replicate 300 'b'

/-- A 200-character tagless page body. -/
def wBody200 : Str := List.replicate 200 'x'

/-- A readability oracle returning a `null` article. -/
def wrdNone : Str → Except Unit (Option Str) := fun _ => .ok none

/-- A readability oracle that throws. -/
def wrdErr : Str → Except Unit (Option Str) := fun _ => .error ()

/-- Three configured feeds for the isolation scenario. -/
def wFeeds : List FeedCfg :=
  [ { name := "A".toList, url := "ua".toList },
    { name := "B".toList, url := "ub".toList },
    { name := "C".toList, url := "uc".toList } ]

/-- An attempt oracle where feed `B` always fails and the others succeed
immediately. -/
def wAttempt : FeedCfg → Nat → Except Str (List Str) := fun f _ =>
  if f.name = "B".toList then .error ("HTTP 500".toList) else .ok [f.name]

/-- A cluster record with every optional field absent. -/
def baseCluster : LLMCluster :=
  { topic_label := none, member_ids := [], market_impact_score := none,
    size := none, sources_count := none, freshness_score := none,
    breaking := false, total_score := none, rank := 1 }

/-- Two clusters both declaring rank 1 (an inconsistent upstream result). -/
def c1cs : List LLMCluster := [baseCluster, baseCluster]

/-- Summaries referencing rank 1 (declared twice) and rank 2 (declared
never). -/
def c1tops : List TopSummary :=
  [ { cluster_rank := 1, summary := "s one".toList },
    { cluster_rank := 2, summary := "s two".toList } ]

/-- A single consistent cluster and a summary list referencing it. -/
def w1cs : List LLMCluster := [baseCluster]

/-- One summary entry referencing the only declared rank. -/
def w1tops : List TopSummary := [{ cluster_rank := 1, summary := "hello".toList }]

/-- The fixed-input cluster of the scoring claim, carrying an upstream
`total_score` of 42 that the formula cannot produce. -/
def cex2 : LLMCluster :=
  { baseCluster with
    market_impact_score := some (7 / 10), size := some 4,
    sources_count := some 3, freshness_score := some (9 / 10),
    total_score := some 42 }

/-- A cluster listing the same article twice in `member_ids`. -/
def cex8 : LLMCluster :=
  { baseCluster with member_ids := ["a".toList, "a".toList] }

-- ─────────────────────────────────────────────────────────
-- C10: getDomain
-- ─────────────────────────────────────────────────────────

/-- C10: `getDomain` is total: for every input string it never throws (the
embedding is a total function and the `try`/`catch` is the parser's
`Option`); it returns `null` exactly when the string is not a parseable
URL, and otherwise returns the URL's hostname with a single leading
`www.` prefix removed. -/
theorem C10_getDomain_total (parseURL : Str → Option URLRec) (href : Str) :
    (getDomain parseURL href = none ↔ parseURL href = none) ∧
    (∀ u, parseURL href = some u →
      getDomain parseURL href = some (stripWww u.hostname)) ∧
    (∀ rest : Str, stripWww ('w' :: 'w' :: 'w' :: '.' :: rest) = rest) ∧
    (∀ h : Str, (∀ rest : Str, h ≠ 'w' :: 'w' :: 'w' :: '.' :: rest) →
      stripWww h = h) := by
  refine ⟨?_, ?_, ?_, ?_⟩
  · unfold getDomain
    cases hp : parseURL href <;> simp
  · intro u hu
    simp [getDomain, hu]
  · intro rest
    rfl
  · intro h hne
    unfold stripWww
    split
    · rename_i rest
      exact absurd rfl (hne rest)
    · rfl

/-- C10 witness: concrete evaluations through `C10_getDomain_total`. -/
theorem C10_getDomain_total_witness :
    getDomain wParseURL ("https://www.example.com/a".toList) =
      some (stripWww ("www.example.com".toList)) ∧
    (getDomain wParseURL ("not a url".toList) = none ↔
      wParseURL ("not a url".toList) = none) ∧
    stripWww ('w' :: 'w' :: 'w' :: '.' :: ("www.example.com".toList)) =
      "www.example.com".toList :=
  ⟨(C10_getDomain_total wParseURL ("https://www.example.com/a".toList)).2.1
      { hostname := "www.example.com".toList } (by decide),
   (C10_getDomain_total wParseURL ("not a url".toList)).1,
   (C10_getDomain_total wParseURL ("x".toList)).2.2.1 ("www.example.com".toList)⟩

-- ─────────────────────────────────────────────────────────
-- C3: freshness filter
-- ─────────────────────────────────────────────────────────

/-- C3: the freshness filter retains an item whose age equals exactly the
12-hour window, drops an item whose age exceeds the window by any positive
amount, and never drops an item whose timestamp is absent or
unparseable. -/
theorem C3_freshness_boundary (now d : Int) (hd : 0 < d)
    (isoDate pubDate : Option Str) (parse : Str → Option Int)
    (hnp : resolvePublishedAt isoDate pubDate parse = none) :
    freshnessDrops (some (now - TWELVE_HOURS)) now = false ∧
    freshnessDrops (some (now - TWELVE_HOURS - d)) now = true ∧
    freshnessDrops (resolvePublishedAt isoDate pubDate parse) now = false ∧
    (∀ p : Str → Option Int, resolvePublishedAt none none p = none) ∧
    (∀ (iso2 pub2 : Option Str) (p : Str → Option Int),
      (∀ ts, p ts = none) → resolvePublishedAt iso2 pub2 p = none) := by
  refine ⟨?_, ?_, ?_, fun p => rfl, ?_⟩
  · simp only [freshnessDrops, decide_eq_false_iff_not, not_lt]
    omega
  · simp only [freshnessDrops, decide_eq_true_eq]
    omega
  · rw [hnp]
    rfl
  · intro iso2 pub2 p hp
    unfold resolvePublishedAt
    cases iso2 with
    | some s =>
      simp only []
      by_cases he : s.isEmpty = true
      · rw [if_pos he]
      · rw [if_neg he]
        exact hp s
    | none =>
      cases pub2 with
      | none => rfl
      | some s =>
        simp only []
        by_cases he : s.isEmpty = true
        · rw [if_pos he]
        · rw [if_neg he]
          exact hp s

/-- C3 witness: the boundary facts evaluated at `now = 0` with an
always-failing date parser. -/
theorem C3_freshness_boundary_witness :
    (0 : Int) < 1 ∧ resolvePublishedAt none none wParseNone = none ∧
    (freshnessDrops (some ((0 : Int) - TWELVE_HOURS)) 0 = false ∧
     freshnessDrops (some ((0 : Int) - TWELVE_HOURS - 1)) 0 = true ∧
     freshnessDrops (resolvePublishedAt none none wParseNone) 0 = false ∧
     (∀ p : Str → Option Int, resolvePublishedAt none none p = none) ∧
     (∀ (iso2 pub2 : Option Str) (p : Str → Option Int),
       (∀ ts, p ts = none) → resolvePublishedAt iso2 pub2 p = none)) :=
  ⟨by decide, rfl, C3_freshness_boundary 0 1 (by decide) none none wParseNone rfl⟩

-- ─────────────────────────────────────────────────────────
-- C4: always-upgrade sources
-- ─────────────────────────────────────────────────────────

/-- C4: for an item from an always-upgrade source, the snippet is replaced
by the extraction result only when extraction succeeds with at least 200
characters; on a failed or short extraction the initial content is kept
unchanged (regardless of its length) and the item's fate is exactly what
it would have been with no extraction at all — it is never dropped solely
because the upgrade failed. -/
theorem C4_fulltext_policy (source : Str)
    (hsrc : FULLTEXT_SOURCES.contains source = true)
    (snippet contentField title : Option Str) (extract : Option Str)
    (hfail : extract = none ∨ ∃ f, extract = some f ∧ f.length < MIN_FULLTEXT) :
    (∀ c0, applyPolicy source c0 extract = c0) ∧
    processItemContent source snippet contentField title extract =
      processItemContent source snippet contentField title none ∧
    (∀ c0 e, applyPolicy source c0 e ≠ c0 →
      ∃ f, e = some f ∧ MIN_FULLTEXT ≤ f.length ∧
        applyPolicy source c0 e = some f) := by
  have hsimp : ∀ (c0 e : Option Str), applyPolicy source c0 e =
      (match e with
       | some full =>
         if !full.isEmpty && decide (MIN_FULLTEXT ≤ full.length) then some full
         else c0
       | none => c0) := by
    intro c0 e
    unfold applyPolicy
    rw [if_pos hsrc]
  have hkeep : ∀ c0, applyPolicy source c0 extract = c0 := by
    intro c0
    rcases hfail with hnone | ⟨f, hf, hlen⟩
    · rw [hnone, hsimp]
    · rw [hf, hsimp]
      have hd : decide (MIN_FULLTEXT ≤ f.length) = false :=
        decide_eq_false (by omega)
      simp [hd]
  refine ⟨hkeep, ?_, ?_⟩
  · unfold processItemContent
    simp only [hkeep, hsimp]
  · intro c0 e hne
    cases e with
    | none => exact absurd (hsimp c0 none) hne
    | some f =>
      by_cases hc : (!f.isEmpty && decide (MIN_FULLTEXT ≤ f.length)) = true
      · refine ⟨f, rfl, of_decide_eq_true ((Bool.and_eq_true _ _).mp hc).2, ?_⟩
        rw [hsimp]
        show (if (!f.isEmpty && decide (MIN_FULLTEXT ≤ f.length)) = true
          then some f else c0) = some f
        rw [if_pos hc]
      · have heq : applyPolicy source c0 (some f) = c0 := by
          rw [hsimp]
          show (if (!f.isEmpty && decide (MIN_FULLTEXT ≤ f.length)) = true
            then some f else c0) = c0
          rw [if_neg hc]
        exact absurd heq hne

/-- C4 witness: a Reuters item with a 2-character snippet and a failed
(short) extraction keeps the snippet and behaves as if no extraction had
been attempted. -/
theorem C4_fulltext_policy_witness :
    applyPolicy ("Reuters".toList) (some ("hi".toList)) (some ("tiny".toList)) =
      some ("hi".toList) ∧
    processItemContent ("Reuters".toList) (some ("hi".toList)) none none
        (some ("tiny".toList)) =
      processItemContent ("Reuters".toList) (some ("hi".toList)) none none none := by
  have h := C4_fulltext_policy ("Reuters".toList) (by decide)
    (some ("hi".toList)) none none (some ("tiny".toList))
    (Or.inr ⟨"tiny".toList, rfl, by decide⟩)
  exact ⟨h.1 (some ("hi".toList)), h.2.1⟩

-- ─────────────────────────────────────────────────────────
-- C5: snippet-preferred sources
-- ─────────────────────────────────────────────────────────

set_option maxRecDepth 4096 in
/-- C5 counterexample: for a snippet-preferred source, a snippet of trimmed
length 50 passes the 40-character gate, so extraction is never consulted
(the policy keeps the snippet whatever `extract` holds), yet the item is
dropped at the 70-character floor even though the available extraction
result has 300 ≥ 200 characters — refuting "dropped only if both the
snippet and the extraction fallback fail to reach the minimum length". -/
theorem C5_counterexample :
    applyPolicy ("Yahoo Finance".toList) (some snip50) (some ext300) =
      some snip50 ∧
    MIN_FULLTEXT ≤ ext300.length ∧
    processItemContent ("Yahoo Finance".toList) (some snip50) none none
      (some ext300) = none := by
  refine ⟨by decide, by decide, by decide⟩

/-- C5 amended: for a snippet-preferred source the pipeline uses the feed
snippet whenever its trimmed length is at least 40 and consults extraction
only otherwise; when the snippet is missing or thin, a ≥ 200-character
extraction replaces it and a failed or short extraction leaves the initial
content unchanged; the item is dropped exactly when the final cleaned
content is below the 70-character floor — so a 40–69-character snippet can
be dropped without extraction ever being attempted, and a thin snippet is
dropped only if the extraction fallback also fails to lift the final
content over the floor. -/
theorem C5_amended (source : Str)
    (hsrc : FULLTEXT_SOURCES.contains source = false) :
    (∀ (s : Str) (e : Option Str), 40 ≤ (trimL s).length →
      applyPolicy source (some s) e = some s) ∧
    (∀ (c0 : Option Str) (f : Str),
      (c0 = none ∨ ∃ s, c0 = some s ∧ (trimL s).length < 40) →
      MIN_FULLTEXT ≤ f.length → applyPolicy source c0 (some f) = some f) ∧
    (∀ (c0 e : Option Str),
      (e = none ∨ ∃ f, e = some f ∧ f.length < MIN_FULLTEXT) →
      applyPolicy source c0 e = c0) ∧
    (∀ snippet contentField title extract,
      processItemContent source snippet contentField title extract = none ↔
        (cleanContent (titleGuard
          (applyPolicy source (firstTruthy snippet contentField) extract)
          title)).length < 70) := by
  have hns : ¬(FULLTEXT_SOURCES.contains source = true) := by
    rw [hsrc]
    decide
  refine ⟨?_, ?_, ?_, ?_⟩
  · intro s e hlen
    unfold applyPolicy
    rw [if_neg hns]
    split
    · rename_i hcond
      have hcond' : decide ((trimL s).length < 40) = true := hcond
      exfalso
      simp only [decide_eq_true_eq] at hcond'
      omega
    · rfl
  · intro c0 f hthin hflen
    have hne : f.isEmpty = false := by
      cases f with
      | nil => simp [MIN_FULLTEXT] at hflen
      | cons a l => rfl
    have hbool : (!f.isEmpty && decide (MIN_FULLTEXT ≤ f.length)) = true := by
      rw [hne]
      simp only [Bool.not_false, Bool.true_and, decide_eq_true_eq]
      exact hflen
    unfold applyPolicy
    rw [if_neg hns]
    rcases hthin with h0 | ⟨s, hs, hlen⟩
    · subst h0
      show (if (true : Bool) = true then
          (if !f.isEmpty && decide (MIN_FULLTEXT ≤ f.length) then some f
           else (none : Option Str))
        else none) = some f
      rw [if_pos rfl, if_pos hbool]
    · subst hs
      have hc : decide ((trimL s).length < 40) = true := by
        simpa using hlen
      show (if decide ((trimL s).length < 40) = true then
          (if !f.isEmpty && decide (MIN_FULLTEXT ≤ f.length) then some f
           else some s)
        else some s) = some f
      rw [if_pos hc, if_pos hbool]
  · intro c0 e hfail
    unfold applyPolicy
    rw [if_neg hns]
    split
    · rcases hfail with h0 | ⟨f, hf, hlen⟩
      · subst h0
        rfl
      · subst hf
        have hd : decide (MIN_FULLTEXT ≤ f.length) = false :=
          decide_eq_false (by omega)
        have hcond : (!f.isEmpty && decide (MIN_FULLTEXT ≤ f.length)) = false := by
          rw [hd]
          exact Bool.and_false _
        show (if !f.isEmpty && decide (MIN_FULLTEXT ≤ f.length) then some f
          else c0) = c0
        rw [if_neg (by simp [hcond])]
    · rfl
  · intro snippet contentField title extract
    unfold processItemContent
    constructor
    · intro hnone
      by_cases hlt :
          (cleanContent (titleGuard
            (applyPolicy source (firstTruthy snippet contentField) extract)
            title)).length < 70
      · exact hlt
      · rw [if_neg hlt] at hnone
        exact absurd hnone (by simp)
    · intro hlt
      rw [if_pos hlt]

set_option maxRecDepth 4096 in
/-- C5 witness: the amended policy facts evaluated on concrete snippets
and extraction results for a snippet-preferred source. -/
theorem C5_amended_witness :
    applyPolicy ("Yahoo Finance".toList) (some snip50) (some ext300) =
      some snip50 ∧
    applyPolicy ("Yahoo Finance".toList) (some ("hi".toList)) (some ext300) =
      some ext300 ∧
    applyPolicy ("Yahoo Finance".toList) (some ("hi".toList)) none =
      some ("hi".toList) ∧
    (processItemContent ("Yahoo Finance".toList) (some snip50) none none
        (some ext300) = none ↔
      (cleanContent (titleGuard
        (applyPolicy ("Yahoo Finance".toList) (firstTruthy (some snip50) none)
          (some ext300)) none)).length < 70) := by
  have h := C5_amended ("Yahoo Finance".toList) (by decide)
  exact ⟨h.1 snip50 (some ext300) (by decide),
    h.2.1 (some ("hi".toList)) ext300 (Or.inr ⟨"hi".toList, rfl, by decide⟩)
      (by decide),
    h.2.2.1 (some ("hi".toList)) none (Or.inl rfl),
    h.2.2.2 (some snip50) none none (some ext300)⟩

-- ─────────────────────────────────────────────────────────
-- C7: extractFullText
-- ─────────────────────────────────────────────────────────

theorem safeHtmlOf_take (body : Str) :
    safeHtmlOf (body.take 2500000) = safeHtmlOf body := by
  unfold safeHtmlOf
  by_cases hlong : body.length > 2500000
  · have hlen : (body.take 2500000).length = 2500000 := by
      rw [List.length_take]
      omega
    rw [if_pos hlong, if_neg (by omega)]
  · have heq : body.take 2500000 = body := List.take_of_length_le (by omega)
    rw [heq, if_neg hlong, if_neg hlong]

/-- C7: full-document extraction truncates fetched HTML beyond 2,500,000
characters (the result only depends on the truncated body), returns `null`
on a network exception, on a non-2xx status, and on a readability
exception, falls back to the crude tag-stripping extractor whenever the
readability text has fewer than 200 characters, and returns a non-null
result only when the final text has at least 200 characters. -/
theorem C7_extract_fulltext :
    (∀ rd, extractFullText none rd = none) ∧
    (∀ (body : Str) rd,
      extractFullText (some { ok := false, body := body }) rd = none) ∧
    (∀ fr rd t, extractFullText fr rd = some t → MIN_FULLTEXT ≤ t.length) ∧
    (∀ (ok : Bool) (body : Str) rd,
      extractFullText (some { ok := ok, body := body }) rd =
        extractFullText (some { ok := ok, body := body.take 2500000 }) rd) ∧
    (∀ (body : Str) rd art, rd (safeHtmlOf body) = .ok art →
      (collapseWs (art.getD [])).length < MIN_FULLTEXT →
      extractFullText (some { ok := true, body := body }) rd =
        (if MIN_FULLTEXT ≤ (stripHtmlToText (safeHtmlOf body)).length then
          some (stripHtmlToText (safeHtmlOf body))
        else none)) ∧
    (∀ (body : Str) rd, rd (safeHtmlOf body) = .error () →
      extractFullText (some { ok := true, body := body }) rd = none) := by
  refine ⟨fun rd => rfl, fun body rd => rfl, ?_, ?_, ?_, ?_⟩
  · intro fr rd t hsome
    match fr with
    | none => exact absurd hsome (by simp [extractFullText])
    | some { ok := false, body := body } =>
      exact absurd hsome (by simp [extractFullText])
    | some { ok := true, body := body } =>
      simp only [extractFullText, Bool.not_true, Bool.false_eq_true,
        if_false] at hsome
      rcases hrd : rd (safeHtmlOf body) with e | art
      · rw [hrd] at hsome
        simp at hsome
      · rw [hrd] at hsome
        simp only [] at hsome
        by_cases hfb : ((collapseWs (art.getD [])).isEmpty ||
            decide ((collapseWs (art.getD [])).length < 200)) = true
        · rw [if_pos hfb] at hsome
          by_cases hfin :
              (!(stripHtmlToText (safeHtmlOf body)).isEmpty &&
                decide (200 ≤ (stripHtmlToText (safeHtmlOf body)).length)) = true
          · rw [if_pos hfin] at hsome
            cases hsome
            exact of_decide_eq_true ((Bool.and_eq_true _ _).mp hfin).2
          · rw [if_neg hfin] at hsome
            simp at hsome
        · rw [if_neg hfb] at hsome
          by_cases hfin : (!(collapseWs (art.getD [])).isEmpty &&
              decide (200 ≤ (collapseWs (art.getD [])).length)) = true
          · rw [if_pos hfin] at hsome
            cases hsome
            exact of_decide_eq_true ((Bool.and_eq_true _ _).mp hfin).2
          · rw [if_neg hfin] at hsome
            simp at hsome
  · intro ok body rd
    simp only [extractFullText, safeHtmlOf_take]
  · intro body rd art hrd hshort
    simp only [extractFullText, Bool.not_true, Bool.false_eq_true, if_false,
      hrd]
    have hfb : ((collapseWs (art.getD [])).isEmpty ||
        decide ((collapseWs (art.getD [])).length < 200)) = true := by
      rw [Bool.or_eq_true]
      right
      exact decide_eq_true hshort
    rw [if_pos hfb]
    by_cases hlen : MIN_FULLTEXT ≤ (stripHtmlToText (safeHtmlOf body)).length
    · have hne : (stripHtmlToText (safeHtmlOf body)).isEmpty = false := by
        rcases hs : stripHtmlToText (safeHtmlOf body) with _ | ⟨a, l⟩
        · rw [hs] at hlen
          simp [MIN_FULLTEXT] at hlen
        · rfl
      rw [if_pos (by rw [hne]; simp only [Bool.not_false, Bool.true_and,
        decide_eq_true_eq]; exact hlen), if_pos hlen]
    · rw [if_neg (by
        intro hc
        exact hlen (of_decide_eq_true ((Bool.and_eq_true _ _).mp hc).2)),
        if_neg hlen]
  · intro body rd hrd
    simp only [extractFullText, Bool.not_true, Bool.false_eq_true, if_false,
      hrd]

set_option maxRecDepth 8192 in
/-- C7 witness: the extraction facts evaluated on a 200-character tagless
page with a null-article readability result and with a throwing one. -/
theorem C7_extract_fulltext_witness :
    extractFullText none wrdNone = none ∧
    extractFullText (some { ok := false, body := wBody200 }) wrdNone = none ∧
    MIN_FULLTEXT ≤ wBody200.length ∧
    extractFullText (some { ok := true, body := wBody200 }) wrdNone =
      extractFullText (some { ok := true, body := wBody200.take 2500000 })
        wrdNone ∧
    extractFullText (some { ok := true, body := wBody200 }) wrdNone =
      (if MIN_FULLTEXT ≤ (stripHtmlToText (safeHtmlOf wBody200)).length then
        some (stripHtmlToText (safeHtmlOf wBody200))
      else none) ∧
    extractFullText (some { ok := true, body := wBody200 }) wrdErr = none := by
  refine ⟨C7_extract_fulltext.1 wrdNone,
    C7_extract_fulltext.2.1 wBody200 wrdNone,
    C7_extract_fulltext.2.2.1 (some { ok := true, body := wBody200 }) wrdNone
      wBody200 (by decide),
    C7_extract_fulltext.2.2.2.1 true wBody200 wrdNone,
    C7_extract_fulltext.2.2.2.2.1 wBody200 wrdNone none rfl (by decide),
    C7_extract_fulltext.2.2.2.2.2 wBody200 wrdErr rfl⟩

-- ─────────────────────────────────────────────────────────
-- C9: summary insertion
-- ─────────────────────────────────────────────────────────

/-- C9: in the summary-insertion step, an entry whose `cluster_rank` does
not resolve in the rank map produces no row and no error (it is silently
skipped), a resolving entry produces exactly one row carrying the resolved
cluster id and `trunc(summary, 300)`, the row count equals the number of
resolving entries, and every inserted `summary_text` has at most 300
characters. -/
theorem C9_summary_insertion (m : List (Int × ClusterId)) (tops : List TopSummary)
    (s : TopSummary) :
    (mapGet m s.cluster_rank = none →
      summariesRows m (s :: tops) = summariesRows m tops) ∧
    (∀ cid, mapGet m s.cluster_rank = some cid →
      summariesRows m (s :: tops) =
        { cluster_id := cid, summary_text := trunc (some s.summary) 300 } ::
          summariesRows m tops) ∧
    (summariesRows m tops).length =
      tops.countP (fun t => (mapGet m t.cluster_rank).isSome) ∧
    (∀ row ∈ summariesRows m tops, row.summary_text.length ≤ 300) := by
  refine ⟨?_, ?_, ?_, ?_⟩
  · intro h
    simp [summariesRows, List.filterMap_cons, h]
  · intro cid h
    simp [summariesRows, List.filterMap_cons, h]
  · induction tops with
    | nil => rfl
    | cons t ts ih =>
      simp only [summariesRows, List.filterMap_cons, List.countP_cons]
      cases hm : mapGet m t.cluster_rank with
      | none => simpa [hm, summariesRows] using ih
      | some cid => simpa [hm, summariesRows] using ih
  · intro row hrow
    simp only [summariesRows, List.mem_filterMap] at hrow
    obtain ⟨t, ht, heq⟩ := hrow
    cases hm : mapGet m t.cluster_rank with
    | none =>
      rw [hm] at heq
      exact absurd heq (by simp)
    | some cid =>
      rw [hm] at heq
      simp only [Option.map_some', Option.some_inj] at heq
      have : row.summary_text = trunc (some t.summary) 300 := by
        rw [← heq]
      rw [this, trunc, List.length_take]
      exact min_le_left _ _

/-- C9 witness: concrete rank map `{1 ↦ 0}` with one resolving and one
non-resolving summary entry. -/
theorem C9_summary_insertion_witness :
    summariesRows [((1 : Int), (0 : ClusterId))]
        ({ cluster_rank := 2, summary := "skip me".toList } :: w1tops) =
      summariesRows [((1 : Int), (0 : ClusterId))] w1tops ∧
    summariesRows [((1 : Int), (0 : ClusterId))] w1tops =
      [{ cluster_id := 0, summary_text := trunc (some ("hello".toList)) 300 }] ∧
    (summariesRows [((1 : Int), (0 : ClusterId))] w1tops).length =
      w1tops.countP (fun t =>
        (mapGet [((1 : Int), (0 : ClusterId))] t.cluster_rank).isSome) ∧
    (trunc (some ("hello".toList)) 300).length ≤ 300 := by
  refine ⟨(C9_summary_insertion [((1 : Int), (0 : ClusterId))] w1tops
      { cluster_rank := 2, summary := "skip me".toList }).1 (by decide),
    (C9_summary_insertion [((1 : Int), (0 : ClusterId))] []
      { cluster_rank := 1, summary := "hello".toList }).2.1 0 (by decide),
    (C9_summary_insertion [((1 : Int), (0 : ClusterId))] w1tops
      { cluster_rank := 1, summary := "hello".toList }).2.2.1,
    (C9_summary_insertion [((1 : Int), (0 : ClusterId))] w1tops
      { cluster_rank := 1, summary := "hello".toList }).2.2.2
      { cluster_id := 0, summary_text := trunc (some ("hello".toList)) 300 }
      (by decide)⟩

-- ─────────────────────────────────────────────────────────
-- C1: rank consistency of the persisted run
-- ─────────────────────────────────────────────────────────

theorem countP_eq_one_of_nodup_mem (l : List Int) (r : Int)
    (hnd : l.Nodup) (hm : r ∈ l) :
    l.countP (fun x => decide (x = r)) = 1 := by
  induction l with
  | nil => cases hm
  | cons a l ih =>
    rw [List.nodup_cons] at hnd
    rw [List.countP_cons]
    rcases List.mem_cons.mp hm with hra | hrl
    · have hz : l.countP (fun x => decide (x = r)) = 0 := by
        rw [List.countP_eq_zero]
        intro x hx
        simp only [decide_eq_true_eq]
        intro hxr
        exact hnd.1 ((hxr.trans hra) ▸ hx)
      rw [hz]
      simp [hra.symm]
    · have hne : ¬(a = r) := fun h => hnd.1 (h ▸ hrl)
      rw [ih hnd.2 hrl]
      simp [hne]

theorem cirRowsGo_countP (r : Int) :
    ∀ (cs : List LLMCluster) (i : Nat),
      (cirRowsGo i cs).countP (fun e => decide (e.rank = r)) =
        cs.countP (fun c => decide (c.rank = r)) := by
  intro cs
  induction cs with
  | nil => intro i; rfl
  | cons c rest ih =>
    intro i
    simp only [cirRowsGo, List.countP_cons, ih]

theorem countP_rank_map (cs : List LLMCluster) (r : Int) :
    cs.countP (fun c => decide (c.rank = r)) =
      (cs.map (·.rank)).countP (fun x => decide (x = r)) := by
  induction cs with
  | nil => rfl
  | cons c rest ih =>
    simp only [List.map_cons, List.countP_cons, ih]

theorem mapGet_eq_none_iff (l : List (Int × ClusterId)) (r : Int) :
    mapGet l r = none ↔ ∀ kv ∈ l, kv.1 ≠ r := by
  induction l with
  | nil => simp [mapGet]
  | cons kv rest ih =>
    simp only [mapGet]
    cases hm : mapGet rest r with
    | some v2 =>
      simp only []
      constructor
      · intro h
        cases h
      · intro h
        exact absurd (ih.mpr (fun kv2 hkv2 => h kv2 (List.mem_cons_of_mem _ hkv2)))
          (by rw [hm]; simp)
    | none =>
      constructor
      · intro h
        intro kv2 hkv2
        rcases List.mem_cons.mp hkv2 with h1 | h2
        · subst h1
          intro hk
          rw [if_pos hk] at h
          cases h
        · exact ih.mp hm kv2 h2
      · intro h
        rw [if_neg (h kv (List.mem_cons_self _ _))]

theorem rankMapGo_fst :
    ∀ (cs : List LLMCluster) (i : Nat),
      (rankMapGo i cs).map Prod.fst = cs.map (·.rank) := by
  intro cs
  induction cs with
  | nil => intro i; rfl
  | cons c rest ih =>
    intro i
    simp only [rankMapGo, List.map_cons, ih]

theorem mapGet_rankMap_isSome (cs : List LLMCluster) (r : Int) :
    (mapGet (rankMap cs) r).isSome = true ↔ r ∈ cs.map (·.rank) := by
  have hmem : r ∈ cs.map (·.rank) ↔ ∃ kv ∈ rankMap cs, kv.1 = r := by
    rw [← rankMapGo_fst cs 0]
    simp [rankMap, List.mem_map]
  rw [hmem]
  constructor
  · intro hs
    by_contra hne
    push_neg at hne
    have : mapGet (rankMap cs) r = none :=
      (mapGet_eq_none_iff _ _).mpr hne
    rw [this] at hs
    cases hs
  · intro ⟨kv, hkv, hfst⟩
    cases hg : mapGet (rankMap cs) r with
    | some v => rfl
    | none =>
      exact absurd hfst ((mapGet_eq_none_iff _ _).mp hg kv hkv)

theorem mem_insertAsc (x a : Int) (l : List Int) :
    a ∈ insertAsc x l ↔ a = x ∨ a ∈ l := by
  induction l with
  | nil => simp [insertAsc]
  | cons y ys ih =>
    simp only [insertAsc]
    by_cases hxy : x ≤ y
    · rw [if_pos hxy]
      simp
    · rw [if_neg hxy]
      simp only [List.mem_cons, ih]
      tauto

theorem mem_sortInts (a : Int) (l : List Int) : a ∈ sortInts l ↔ a ∈ l := by
  induction l with
  | nil => simp [sortInts]
  | cons x xs ih =>
    simp only [sortInts, mem_insertAsc, ih, List.mem_cons]

theorem topRanks_mem_ranks (cs : List LLMCluster) (tops : List TopSummary)
    (top : Nat)
    (href : ∀ s ∈ tops, s.cluster_rank ∈ cs.map (·.rank)) :
    ∀ r ∈ topRanks cs tops top, r ∈ cs.map (·.rank) := by
  intro r hr
  unfold topRanks at hr
  by_cases hemp : tops.isEmpty = true
  · rw [if_pos hemp] at hr
    have := List.take_subset top (sortInts (cs.map (·.rank))) hr
    exact (mem_sortInts _ _).mp this
  · rw [if_neg hemp] at hr
    obtain ⟨s, hs, hrs⟩ := List.mem_map.mp hr
    exact hrs ▸ href s hs

/-- C1 counterexample: with an upstream result declaring rank 1 twice and a
summary list referencing ranks 1 and 2, the persisted run has a
`top_daily_clusters` row whose rank (2) matches no `clusters_in_run` row
and whose rank-map resolution is `undefined` (`none`), and a `summaries`
row whose referenced rank (1) matches two `clusters_in_run` rows — so rank
resolution does not always yield a cluster id and referenced ranks need
not match exactly one ranked entry. -/
theorem C1_counterexample :
    (topRows c1cs c1tops 8).map (·.cluster_id) = [some 1, none] ∧
    (cirRows c1cs).countP (fun e => decide (e.rank = (2 : Int))) = 0 ∧
    (cirRows c1cs).countP (fun e => decide (e.rank = (1 : Int))) = 2 ∧
    (summariesRows (rankMap c1cs) c1tops).map (·.cluster_id) = [1] := by
  refine ⟨by decide, by decide, by decide, by decide⟩

/-- C1 amended: when the upstream clusters declare pairwise-distinct ranks
and every rank referenced by the top selection resolves among them, every
inserted `top_daily_clusters` row's rank matches exactly one
`clusters_in_run` row of the same run, its rank-map resolution yields a
cluster id, and every rank referenced by a `summaries` entry matches
exactly one `clusters_in_run` row. -/
theorem C1_rank_consistency (cs : List LLMCluster) (tops : List TopSummary)
    (top : Nat) (hnd : (cs.map (·.rank)).Nodup)
    (href : ∀ s ∈ tops, s.cluster_rank ∈ cs.map (·.rank)) :
    (∀ row ∈ topRows cs tops top,
      (cirRows cs).countP (fun e => decide (e.rank = row.rank)) = 1 ∧
        row.cluster_id.isSome = true) ∧
    (∀ s ∈ tops,
      (cirRows cs).countP (fun e => decide (e.rank = s.cluster_rank)) = 1) := by
  have hcount : ∀ r ∈ cs.map (·.rank),
      (cirRows cs).countP (fun e => decide (e.rank = r)) = 1 := by
    intro r hr
    rw [cirRows, cirRowsGo_countP, countP_rank_map]
    exact countP_eq_one_of_nodup_mem _ _ hnd hr
  constructor
  · intro row hrow
    obtain ⟨rk, hrk, hrow_eq⟩ := List.mem_map.mp hrow
    have hrkmem : rk ∈ cs.map (·.rank) :=
      topRanks_mem_ranks cs tops top href rk hrk
    subst hrow_eq
    exact ⟨hcount rk hrkmem, (mapGet_rankMap_isSome cs rk).mpr hrkmem⟩
  · intro s hs
    exact hcount s.cluster_rank (href s hs)

/-- C1 witness: the consistency facts evaluated on a single rank-1 cluster
with a summary list referencing rank 1. -/
theorem C1_rank_consistency_witness :
    ((cirRows w1cs).countP (fun e => decide (e.rank = (1 : Int))) = 1 ∧
      (some (0 : ClusterId)).isSome = true) ∧
    (cirRows w1cs).countP (fun e => decide (e.rank = (1 : Int))) = 1 := by
  have h := C1_rank_consistency w1cs w1tops 8 (by decide) (by decide)
  exact ⟨h.1 { cluster_id := some 0, rank := 1, total_score := 0 } (by decide),
    h.2 { cluster_rank := 1, summary := "hello".toList } (by decide)⟩

-- ─────────────────────────────────────────────────────────
-- C2: scoring formula and score persistence
-- ─────────────────────────────────────────────────────────

theorem cirRowsGo_total_score :
    ∀ (cs : List LLMCluster) (i : Nat),
      (cirRowsGo i cs).map (·.total_score) =
        cs.map (fun c => c.total_score.getD 0) := by
  intro cs
  induction cs with
  | nil => intro i; rfl
  | cons c rest ih =>
    intro i
    simp only [cirRowsGo, List.map_cons, ih]

/-- C2 counterexample: the scoring formula at the fixed inputs
`(0.7, 4, 3, 0.9)` is not within `1e-4` of `2.1662` (it exceeds `2.2004`),
and the persistence step stores the upstream-supplied `total_score` (here
42, impossible under the formula) unchanged — no re-derivation or
validation happens. -/
theorem C2_counterexample :
    ¬(|totalScore 0.7 4 3 0.9 - 2.1662| ≤ 1 / 10000) ∧
    (cirRows [cex2]).map (·.total_score) = [(42 : ℚ)] := by
  constructor
  · intro habs
    have hlow := totalScore_fixed_bounds.1
    have habs2 : totalScore 0.7 4 3 0.9 - 2.1662 ≤ 1 / 10000 :=
      le_trans (le_abs_self _) habs
    nlinarith
  · decide

/-- C2 amended (spec-modelled scorer): the §4.5 formula — which appears in
the repository only as prompt text for the external model — evaluated at
`(market_impact_score = 0.7, size = 4, sources_count = 3,
freshness_score = 0.9)` equals `0.7 + 0.4·ln 5 + 0.3·ln 4 + 0.5·0.9`,
a value strictly between 2.2004 and 2.2205 (so ≈ 2.2097, not ≈ 2.1662);
and the pipeline persists the total_score values supplied by the external
clustering result unchanged (absent values default to 0) rather than
re-deriving or validating them. -/
theorem C2_scoring :
    totalScore 0.7 4 3 0.9 =
      0.7 + 0.4 * Real.log 5 + 0.3 * Real.log 4 + 0.5 * 0.9 ∧
    (2.2004 : ℝ) < totalScore 0.7 4 3 0.9 ∧
    totalScore 0.7 4 3 0.9 < 2.2205 ∧
    ∀ cs : List LLMCluster,
      (cirRows cs).map (·.total_score) =
        cs.map (fun c => c.total_score.getD 0) := by
  refine ⟨?_, totalScore_fixed_bounds.1, totalScore_fixed_bounds.2, ?_⟩
  · rw [totalScore]
    norm_num
  · intro cs
    exact cirRowsGo_total_score cs 0

-- ─────────────────────────────────────────────────────────
-- C6: feed retry, backoff and isolation
-- ─────────────────────────────────────────────────────────

theorem fetchFeedGo_count_le {α : Type} (name : Str)
    (attempt : Nat → Except Str α) :
    ∀ (remaining i : Nat) (lastErr : Str),
      (fetchFeedGo name attempt i remaining lastErr).2 ≤ remaining := by
  intro remaining
  induction remaining with
  | zero =>
    intro i lastErr
    exact Nat.le_refl 0
  | succ r ih =>
    intro i lastErr
    simp only [fetchFeedGo]
    cases hi : attempt i with
    | ok items => simp
    | error e =>
      simp only []
      have := ih (i + 1) e
      omega

theorem fetchFeedGo_all_fail {α : Type} (name : Str)
    (attempt : Nat → Except Str α) (msgs : Nat → Str) :
    ∀ (r i : Nat) (lastErr : Str),
      (∀ j, j < r → attempt (i + j) = .error (msgs (i + j))) →
      fetchFeedGo name attempt i r lastErr =
        (.error (name ++ (": ".toList) ++
          (if r = 0 then lastErr else msgs (i + r - 1))), r) := by
  intro r
  induction r with
  | zero =>
    intro i lastErr h
    rfl
  | succ r ih =>
    intro i lastErr h
    have h0 : attempt i = .error (msgs i) := by
      have := h 0 (Nat.succ_pos r)
      simpa using this
    have hrec := ih (i + 1) (msgs i) (fun j hj => by
      have hx := h (j + 1) (by omega)
      rw [show i + 1 + j = i + (j + 1) by omega]
      exact hx)
    simp only [fetchFeedGo, h0, hrec]
    by_cases hr : r = 0
    · subst hr
      simp
    · rw [if_neg hr, if_neg (by omega)]
      rw [show i + 1 + r - 1 = i + (r + 1) - 1 by omega]

theorem fetchSuccesses_mem {α : Type} (feeds : List FeedCfg) (retries : Nat)
    (attempt : FeedCfg → Nat → Except Str α) (f : FeedCfg) (hf : f ∈ feeds)
    (items : α)
    (hok : (fetchFeed f.name retries (attempt f)).1 = .ok items) :
    (f.name, items) ∈ fetchSuccesses (fetchPhase feeds retries attempt) := by
  induction feeds with
  | nil => cases hf
  | cons g gs ih =>
    rcases List.mem_cons.mp hf with h1 | h2
    · subst h1
      simp only [fetchPhase, List.map_cons, fetchSuccesses,
        List.filterMap_cons, hok]
      exact List.mem_cons_self _ _
    · have hmem := ih h2
      simp only [fetchPhase, List.map_cons, fetchSuccesses,
        List.filterMap_cons]
      cases hg : (fetchFeed g.name retries (attempt g)).1 with
      | ok it =>
        simp only []
        exact List.mem_cons_of_mem _ hmem
      | error e =>
        simp only []
        exact hmem

theorem fetchPhase_cons {α : Type} (g : FeedCfg) (gs : List FeedCfg)
    (retries : Nat) (attempt : FeedCfg → Nat → Except Str α) :
    fetchPhase (g :: gs) retries attempt =
      (match (fetchFeed g.name retries (attempt g)).1 with
       | .ok items => Except.ok (g.name, items)
       | .error e => Except.error e) :: fetchPhase gs retries attempt := rfl

theorem fetchErrors_cons_ok {α : Type} (v : Str × α)
    (rest : List (Except Str (Str × α))) :
    fetchErrors (Except.ok v :: rest) = fetchErrors rest := rfl

theorem fetchErrors_cons_err {α : Type} (e : Str)
    (rest : List (Except Str (Str × α))) :
    fetchErrors (Except.error e :: rest) =
      (("fetch".toList), ("Error: ".toList) ++ e) :: fetchErrors rest := rfl

theorem fetchErrors_length {α : Type} (feeds : List FeedCfg) (retries : Nat)
    (attempt : FeedCfg → Nat → Except Str α) :
    (fetchErrors (fetchPhase feeds retries attempt)).length =
      feeds.countP (fun f =>
        !(exceptIsOk (fetchFeed f.name retries (attempt f)).1)) := by
  induction feeds with
  | nil => rfl
  | cons g gs ih =>
    rw [fetchPhase_cons, List.countP_cons]
    cases hg : (fetchFeed g.name retries (attempt g)).1 with
    | ok it =>
      simp only [hg]
      rw [fetchErrors_cons_ok, ih]
      simp [exceptIsOk, hg]
    | error e =>
      simp only [hg]
      rw [fetchErrors_cons_err, List.length_cons, ih]
      simp [exceptIsOk, hg]

theorem fetchErrors_mem {α : Type} (feeds : List FeedCfg) (retries : Nat)
    (attempt : FeedCfg → Nat → Except Str α) (f : FeedCfg) (hf : f ∈ feeds)
    (e : Str)
    (herr : (fetchFeed f.name retries (attempt f)).1 = .error e) :
    (("fetch".toList), ("Error: ".toList) ++ e) ∈
      fetchErrors (fetchPhase feeds retries attempt) := by
  induction feeds with
  | nil => cases hf
  | cons g gs ih =>
    rcases List.mem_cons.mp hf with h1 | h2
    · subst h1
      simp only [fetchPhase, List.map_cons, fetchErrors, List.filterMap_cons,
        herr]
      exact List.mem_cons_self _ _
    · have hmem := ih h2
      simp only [fetchPhase, List.map_cons, fetchErrors, List.filterMap_cons]
      cases hg : (fetchFeed g.name retries (attempt g)).1 with
      | ok it =>
        simp only []
        exact hmem
      | error e2 =>
        simp only []
        exact List.mem_cons_of_mem _ hmem

/-- C6: `fetchFeed` makes at most `retries + 1` attempts (default
`retries = 2`, so 3 attempts), the backoff after the 0-based attempt `i`
is `600 * (i + 1)` milliseconds — the 1-based attempt index times the
600ms base; when every attempt fails, the result is a single aggregated
error whose message is prefixed by the feed name (carrying the last
attempt's message) after exactly `retries + 1` attempts; and in the
fan-out, every fulfilled feed's items survive regardless of sibling
failures while each failed feed contributes exactly one error entry
(counted one per failed feed, with the aggregated message inside). -/
theorem C6_fetch_retry_isolation :
    (∀ (name : Str) (retries : Nat) (attempt : Nat → Except Str (List Str)),
      (fetchFeed name retries attempt).2 ≤ retries + 1) ∧
    DEFAULT_RETRIES + 1 = 3 ∧
    (∀ i, backoffDelayMs i = (i + 1) * 600) ∧
    (∀ (name : Str) (retries : Nat) (attempt : Nat → Except Str (List Str))
        (msgs : Nat → Str),
      (∀ j, j ≤ retries → attempt j = .error (msgs j)) →
      fetchFeed name retries attempt =
        (.error (name ++ (": ".toList) ++ msgs retries), retries + 1)) ∧
    (∀ (feeds : List FeedCfg) (retries : Nat)
        (attempt : FeedCfg → Nat → Except Str (List Str)),
      (fetchPhase feeds retries attempt).length = feeds.length ∧
      (∀ f ∈ feeds, ∀ items,
        (fetchFeed f.name retries (attempt f)).1 = .ok items →
        (f.name, items) ∈ fetchSuccesses (fetchPhase feeds retries attempt)) ∧
      (fetchErrors (fetchPhase feeds retries attempt)).length =
        feeds.countP (fun f =>
          !(exceptIsOk (fetchFeed f.name retries (attempt f)).1)) ∧
      (∀ f ∈ feeds, ∀ e,
        (fetchFeed f.name retries (attempt f)).1 = .error e →
        (("fetch".toList), ("Error: ".toList) ++ e) ∈
          fetchErrors (fetchPhase feeds retries attempt))) := by
  refine ⟨?_, rfl, ?_, ?_, ?_⟩
  · intro name retries attempt
    exact fetchFeedGo_count_le name attempt (retries + 1) 0 ("null".toList)
  · intro i
    rw [backoffDelayMs, Nat.mul_comm]
  · intro name retries attempt msgs h
    have := fetchFeedGo_all_fail name attempt msgs (retries + 1) 0
      ("null".toList) (fun j hj => by
        have hx := h j (by omega)
        simpa using hx)
    rw [fetchFeed, this, if_neg (by omega)]
    rw [show 0 + (retries + 1) - 1 = retries by omega]
  · intro feeds retries attempt
    refine ⟨by simp [fetchPhase], ?_, fetchErrors_length feeds retries attempt, ?_⟩
    · intro f hf items hok
      exact fetchSuccesses_mem feeds retries attempt f hf items hok
    · intro f hf e herr
      exact fetchErrors_mem feeds retries attempt f hf e herr

/-- C6 witness: three feeds where only feed `B` fails all attempts —
feeds `A` and `C` still deliver their items, and the error list has
exactly one entry, carrying feed `B`'s aggregated name-prefixed message. -/
theorem C6_fetch_retry_isolation_witness :
    (fetchFeed ("B".toList) 2 (wAttempt { name := "B".toList, url := "ub".toList })).2 ≤ 3 ∧
    fetchFeed ("B".toList) 2 (wAttempt { name := "B".toList, url := "ub".toList }) =
      (.error (("B".toList) ++ (": ".toList) ++ ("HTTP 500".toList)), 3) ∧
    (("A".toList, ["A".toList]) ∈ fetchSuccesses (fetchPhase wFeeds 2 wAttempt)) ∧
    (("C".toList, ["C".toList]) ∈ fetchSuccesses (fetchPhase wFeeds 2 wAttempt)) ∧
    (fetchErrors (fetchPhase wFeeds 2 wAttempt)).length = 1 ∧
    (("fetch".toList, ("Error: ".toList) ++ ("B".toList) ++ (": ".toList) ++
        ("HTTP 500".toList)) ∈ fetchErrors (fetchPhase wFeeds 2 wAttempt)) := by
  have h := C6_fetch_retry_isolation
  have hphase := h.2.2.2.2 wFeeds 2 wAttempt
  refine ⟨h.1 ("B".toList) 2 (wAttempt { name := "B".toList, url := "ub".toList }),
    ?_, ?_, ?_, ?_, ?_⟩
  · exact h.2.2.2.1 ("B".toList) 2
      (wAttempt { name := "B".toList, url := "ub".toList })
      (fun _ => "HTTP 500".toList) (fun j hj => rfl)
  · exact hphase.2.1 { name := "A".toList, url := "ua".toList } (by decide)
      ["A".toList] rfl
  · exact hphase.2.1 { name := "C".toList, url := "uc".toList } (by decide)
      ["C".toList] rfl
  · exact (hphase.2.2.1).trans (by decide)
  · have := hphase.2.2.2 { name := "B".toList, url := "ub".toList } (by decide)
      (("B".toList) ++ (": ".toList) ++ ("HTTP 500".toList)) rfl
    simpa [List.append_assoc] using this

-- ─────────────────────────────────────────────────────────
-- C8: membership insertion in the run-persistence step
-- ─────────────────────────────────────────────────────────

theorem insertUnique_error_of_overlap :
    ∀ (rows tbl : List (ClusterId × Str)) (x : ClusterId × Str),
      x ∈ tbl → x ∈ rows → insertUnique tbl rows = .error () := by
  intro rows
  induction rows with
  | nil =>
    intro tbl x hxt hxr
    cases hxr
  | cons r rs ih =>
    intro tbl x hxt hxr
    simp only [insertUnique]
    by_cases hc : r ∈ tbl
    · rw [if_pos hc]
    · rw [if_neg hc]
      rcases List.mem_cons.mp hxr with h1 | h2
      · subst h1
        exact absurd hxt hc
      · exact ih (tbl ++ [r]) x (List.mem_append_left _ hxt) h2

theorem insertUnique_error_of_dup :
    ∀ (rows tbl : List (ClusterId × Str)), ¬rows.Nodup →
      insertUnique tbl rows = .error () := by
  intro rows
  induction rows with
  | nil =>
    intro tbl hdup
    exact absurd List.nodup_nil hdup
  | cons r rs ih =>
    intro tbl hdup
    simp only [insertUnique]
    by_cases hc : r ∈ tbl
    · rw [if_pos hc]
    · rw [if_neg hc]
      rw [List.nodup_cons] at hdup
      push_neg at hdup
      by_cases hrmem : r ∈ rs
      · exact insertUnique_error_of_overlap rs (tbl ++ [r]) r
          (List.mem_append_right _ (List.mem_singleton_self r)) hrmem
      · exact ih (tbl ++ [r]) (hdup hrmem)

/-- C8 counterexample: a cluster listing the same article twice makes the
membership batch collide on the `(cluster_id, article_id)` key; the
run-persistence step inserts with a plain `.insert` and throws on the
error, so the whole run fails — the collision is not an accepted no-op. -/
theorem C8_counterexample :
    persistRun [cex8] [] 8 = .error () ∧
    upsertPair [((0 : ClusterId), "a".toList)] ((0 : ClusterId), "a".toList) =
      [((0 : ClusterId), "a".toList)] := by
  exact ⟨rfl, rfl⟩

/-- C8 amended: in the run-persistence step a duplicate
`(cluster_id, article_id)` pair in the membership rows fails the whole run
(the plain insert's duplicate-key error is thrown); the idempotent
no-op-on-collision behaviour belongs to the ingestion pipeline, whose
`cluster_members` upsert keyed on the pair leaves the table unchanged on a
collision. -/
theorem C8_membership_insert (clusters : List LLMCluster)
    (tops : List TopSummary) (top : Nat)
    (hdup : ¬(memberRows clusters).Nodup) :
    persistRun clusters tops top = .error () ∧
    (∀ (tbl : List (ClusterId × Str)) (r : ClusterId × Str),
      r ∈ tbl → upsertPair tbl r = tbl) := by
  constructor
  · have hne : (memberRows clusters).isEmpty = false := by
      cases hrows : memberRows clusters with
      | nil => rw [hrows] at hdup; exact absurd List.nodup_nil hdup
      | cons a l => rfl
    have hpm : persistMemberships clusters = .error () := by
      simp only [persistMemberships]
      rw [hne]
      simp only [Bool.false_eq_true, if_false]
      exact insertUnique_error_of_dup (memberRows clusters) [] hdup
    unfold persistRun
    rw [hpm]
  · intro tbl r hc
    unfold upsertPair
    rw [if_pos hc]

/-- C8 witness: the amended facts evaluated on the duplicate-member
cluster and a one-row membership table. -/
theorem C8_membership_insert_witness :
    persistRun [cex8] [] 8 = .error () ∧
    upsertPair [((0 : ClusterId), "a".toList)] ((0 : ClusterId), "a".toList) =
      [((0 : ClusterId), "a".toList)] := by
  have h := C8_membership_insert [cex8] [] 8 (by decide)
  exact ⟨h.1, h.2 [((0 : ClusterId), "a".toList)] ((0 : ClusterId), "a".toList)
    (by decide)⟩
